import Mathlib

/-!
Verification of the ghost-customs3-adapter storage adapter.

The repository contains three variants of the same Ghost storage adapter
class `CustomS3Adapter`:

* the main AWS-SDK variant (`src/storage-adapters/CustomS3/index.js`),
* an earlier AWS-SDK variant (`src/unnamed/part_000`),
* a MinIO-client variant (`src/unnamed/part_001`).

This file gives a shallow embedding of the configuration resolution done in
the constructors and of the object operations (save / exists / delete / read),
with the external collaborators (the object store transport, the local file
system, and the ghost-storage-base naming helpers `getTargetDir` /
`getUniqueFileName`) passed in as explicit function parameters.
-/

/-- JavaScript string-or-undefined value: `none` models `undefined`/`null`
(an unset environment variable), `some s` a present string. -/
abbrev JsVal := Option String

/-- JavaScript truthiness of a string value: `undefined`, `null` and the
empty string are falsy, every other string is truthy. -/
def truthy : JsVal → Bool
  | none => false
  | some s => s ≠ ""

/-- JavaScript template-literal interpolation of a possibly-undefined value:
interpolating `undefined` yields the string "undefined". -/
def jsShow : JsVal → String
  | none => "undefined"
  | some s => s

/-- JavaScript `v || dflt` on a string value. -/
def jsOr (v : JsVal) (dflt : String) : String :=
  if truthy v then jsShow v else dflt

/-- Result of the WHATWG `new URL(...)` parse, with the fields the adapter
reads.  `protocol` includes the trailing colon (for example "https:"), and
`port` is the empty string when the URL carries no explicit port, exactly as
in the JS `URL` object.  `pathname` is carried so that theorems can show the
path plays no part in endpoint derivation. -/
structure JsUrl where
  protocol : String
  hostname : String
  port : String
  pathname : String
  deriving Repr, DecidableEq

/-- The JS `URL.host` accessor: `hostname` plus `":" ++ port` when an
explicit port is present. -/
def JsUrl.host (u : JsUrl) : String :=
  if u.port = "" then u.hostname else u.hostname ++ ":" ++ u.port

/-- The environment variables the constructors read. -/
structure Env where
  s3Bucket : JsVal
  s3Region : JsVal
  s3PublicUrl : JsVal
  s3AccessKey : JsVal
  s3SecretKey : JsVal
  s3Endpoint : JsVal
  deriving Repr, DecidableEq

/-- Errors thrown synchronously by the constructors. -/
inductive CtorError where
  /-- `new URL(publicUrl)` threw (main variant, endpoint derivation). -/
  | invalidPublicUrl (raw : String)
  /-- `new URL(endpoint)` threw (MinIO variant, endpoint parsing). -/
  | invalidEndpoint (raw : String)
  /-- The aggregated missing-configuration error; the list holds the
  `VARIABLE: text` lines of the thrown message in order. -/
  | missingConfig (report : List (String × String))
  deriving Repr, DecidableEq

/-- The `this.x ? 'SET' : 'MISSING'` status text used in the aggregated
configuration error messages. -/
def statusOf (v : JsVal) : String :=
  if truthy v then "SET" else "MISSING"

/-- Endpoint resolution of the main variant
(`src/storage-adapters/CustomS3/index.js`, lines 49-70).  Priority:
explicit `S3_ENDPOINT`, else `protocol//host` of the parsed `S3_PUBLIC_URL`
(throwing if the URL does not parse), else
`https://s3.${this.region}.amazonaws.com`. -/
def resolveEndpoint (env : Env) (parseUrl : String → Option JsUrl) :
    Except CtorError String :=
  if truthy env.s3Endpoint then
    .ok (jsShow env.s3Endpoint)
  else if truthy env.s3PublicUrl then
    match parseUrl (jsShow env.s3PublicUrl) with
    | some url => .ok (url.protocol ++ "//" ++ url.host)
    | none => .error (.invalidPublicUrl (jsShow env.s3PublicUrl))
  else
    .ok ("https://s3." ++ jsShow env.s3Region ++ ".amazonaws.com")

/-- The lines of the aggregated error message of the main variant
(`index.js` lines 83-89): each required variable with its SET/MISSING
status, except `S3_ENDPOINT`, whose line carries the resolved endpoint
value and its provenance. -/
def mainConfigReport (env : Env) (endpoint : String) : List (String × String) :=
  [("S3_BUCKET", statusOf env.s3Bucket),
   ("S3_REGION", statusOf env.s3Region),
   ("S3_ENDPOINT", endpoint ++ " (" ++
      (if truthy env.s3Endpoint then "explicit"
       else "auto-derived from S3_PUBLIC_URL") ++ ")"),
   ("S3_PUBLIC_URL", statusOf env.s3PublicUrl),
   ("S3_ACCESS_KEY", statusOf env.s3AccessKey),
   ("S3_SECRET_KEY", statusOf env.s3SecretKey)]

/-- The adapter state produced by a successful main-variant construction. -/
structure Adapter where
  bucket : JsVal
  region : JsVal
  publicUrl : JsVal
  accessKeyId : JsVal
  secretAccessKey : JsVal
  endpoint : String
  forcePathStyle : Bool
  deriving Repr, DecidableEq

/-- Constructor of the main variant (`index.js` lines 13-110): read the
environment, resolve the endpoint (which can throw on a malformed public
URL), then validate that bucket, region, public URL and both credentials are
truthy, throwing the aggregated error otherwise.  `forcePathStyle` is always
true in the S3 client configuration. -/
def construct (env : Env) (parseUrl : String → Option JsUrl) :
    Except CtorError Adapter :=
  match resolveEndpoint env parseUrl with
  | .error e => .error e
  | .ok endpoint =>
    if truthy env.s3Bucket && truthy env.s3Region && truthy env.s3PublicUrl
        && truthy env.s3AccessKey && truthy env.s3SecretKey then
      .ok { bucket := env.s3Bucket, region := env.s3Region,
            publicUrl := env.s3PublicUrl, accessKeyId := env.s3AccessKey,
            secretAccessKey := env.s3SecretKey, endpoint := endpoint,
            forcePathStyle := true }
    else
      .error (.missingConfig (mainConfigReport env endpoint))

/-- Endpoint resolution of the earlier AWS-SDK variant
(`src/unnamed/part_000`, line 20):
`process.env.S3_ENDPOINT || https://s3.${process.env.S3_REGION}.amazonaws.com`.
There is no derivation from the public URL in this variant. -/
def legacyEndpoint (env : Env) : String :=
  if truthy env.s3Endpoint then jsShow env.s3Endpoint
  else "https://s3." ++ jsShow env.s3Region ++ ".amazonaws.com"

/-- The aggregated error lines of the `part_000` variant (lines 27-33). -/
def legacyConfigReport (env : Env) : List (String × String) :=
  [("S3_BUCKET", statusOf env.s3Bucket),
   ("S3_REGION", statusOf env.s3Region),
   ("S3_ENDPOINT", legacyEndpoint env ++ " (using default AWS if not set)"),
   ("S3_PUBLIC_URL", statusOf env.s3PublicUrl),
   ("S3_ACCESS_KEY", statusOf env.s3AccessKey),
   ("S3_SECRET_KEY", statusOf env.s3SecretKey)]

/-- Constructor of the `part_000` variant (lines 13-45). -/
def legacyConstruct (env : Env) : Except CtorError Adapter :=
  if truthy env.s3Bucket && truthy env.s3Region && truthy env.s3PublicUrl
      && truthy env.s3AccessKey && truthy env.s3SecretKey then
    .ok { bucket := env.s3Bucket, region := env.s3Region,
          publicUrl := env.s3PublicUrl, accessKeyId := env.s3AccessKey,
          secretAccessKey := env.s3SecretKey, endpoint := legacyEndpoint env,
          forcePathStyle := true }
  else
    .error (.missingConfig (legacyConfigReport env))

/-- The region of the MinIO variant (`src/unnamed/part_001`, line 24):
`process.env.S3_REGION || 'us-east-1'`. -/
def minioRegion (env : Env) : String :=
  jsOr env.s3Region "us-east-1"

/-- JavaScript `parseInt` restricted to the digit strings produced by
`URL.port`. -/
def jsParseInt (s : String) : Nat :=
  (s.toNat?).getD 0

/-- JavaScript `String.prototype.includes`, expressed through `splitOn`:
a non-empty pattern occurs in `s` exactly when splitting on it produces more
than one piece. -/
def jsIncludes (s pat : String) : Bool :=
  (s.splitOn pat).length ≥ 2

/-- Endpoint parsing of the MinIO variant (`part_001` lines 52-68): if
`S3_ENDPOINT` is truthy, parse it and take hostname, explicit port or the
protocol default, and `useSSL` from the protocol, throwing when the URL does
not parse; otherwise fall back to the AWS host for the (defaulted) region on
port 443 with SSL. -/
def minioParseEndpoint (env : Env) (parseUrl : String → Option JsUrl) :
    Except CtorError (String × Nat × Bool) :=
  if truthy env.s3Endpoint then
    match parseUrl (jsShow env.s3Endpoint) with
    | some url =>
        .ok (url.hostname,
             (if url.port ≠ "" then jsParseInt url.port
              else if url.protocol = "https:" then 443 else 80),
             url.protocol = "https:")
    | none => .error (.invalidEndpoint (jsShow env.s3Endpoint))
  else
    .ok ("s3." ++ minioRegion env ++ ".amazonaws.com", 443, true)

/-- The aggregated error lines of the MinIO variant (`part_001` lines
75-82).  Note the `S3_REGION` line carries the defaulted region value rather
than a SET/MISSING status, and `S3_ENDPOINT` appears twice: once with its
raw value and once with a SET/MISSING status. -/
def minioConfigReport (env : Env) : List (String × String) :=
  [("S3_BUCKET", statusOf env.s3Bucket),
   ("S3_REGION", minioRegion env),
   ("S3_ENDPOINT", jsShow env.s3Endpoint ++ " (" ++
      (if truthy env.s3Endpoint then "explicit"
       else "auto-derived from S3_PUBLIC_URL") ++ ")"),
   ("S3_PUBLIC_URL", statusOf env.s3PublicUrl),
   ("S3_ACCESS_KEY", statusOf env.s3AccessKey),
   ("S3_ENDPOINT", statusOf env.s3Endpoint),
   ("S3_SECRET_KEY", statusOf env.s3SecretKey)]

/-- The adapter state produced by a successful MinIO-variant construction. -/
structure MinioAdapter where
  bucket : JsVal
  region : String
  publicUrl : JsVal
  accessKeyId : JsVal
  secretAccessKey : JsVal
  endPoint : String
  port : Nat
  useSSL : Bool
  isAWS : Bool
  deriving Repr, DecidableEq

/-- Constructor of the MinIO variant (`part_001` lines 7-93): default the
region, parse the endpoint (which can throw), detect AWS by substring, then
validate that bucket, both credentials, public URL and the raw `S3_ENDPOINT`
are truthy, throwing the aggregated error otherwise. -/
def minioConstruct (env : Env) (parseUrl : String → Option JsUrl) :
    Except CtorError MinioAdapter :=
  match minioParseEndpoint env parseUrl with
  | .error e => .error e
  | .ok parsed =>
    if truthy env.s3Bucket && truthy env.s3AccessKey && truthy env.s3SecretKey
        && truthy env.s3PublicUrl && truthy env.s3Endpoint then
      .ok { bucket := env.s3Bucket, region := minioRegion env,
            publicUrl := env.s3PublicUrl, accessKeyId := env.s3AccessKey,
            secretAccessKey := env.s3SecretKey, endPoint := parsed.1,
            port := parsed.2.1, useSSL := parsed.2.2,
            isAWS := jsIncludes parsed.1 "amazonaws.com" }
    else
      .error (.missingConfig (minioConfigReport env))

/-- Split a character list at every '/' character; the result always has at
least one (possibly empty) piece, as with splitting a string. -/
def splitOnSlash : List Char → List (List Char)
  | [] => [[]]
  | c :: rest =>
    if c = '/' then [] :: splitOnSlash rest
    else
      match splitOnSlash rest with
      | s :: ss => (c :: s) :: ss
      | [] => [[c]]

/-- The non-empty '/'-separated segments of a path string. -/
def segsOf (p : String) : List String :=
  ((splitOnSlash p.data).filter (fun cs => cs ≠ [])).map (fun cs => String.mk cs)

/-- The segment pass of Node's posix `normalize`: drop "." segments, let
".." pop the last kept segment, and keep leading ".." segments only when
`allowAboveRoot` is true (it is false for absolute paths, where ".." at the
root is discarded). -/
def normSegs (allowAboveRoot : Bool) : List String → List String → List String
  | stack, [] => stack.reverse
  | stack, seg :: rest =>
    if seg = "." then normSegs allowAboveRoot stack rest
    else if seg = ".." then
      match stack with
      | [] =>
          normSegs allowAboveRoot (if allowAboveRoot then [".."] else []) rest
      | top :: stk =>
          if top = ".." then normSegs allowAboveRoot (seg :: top :: stk) rest
          else normSegs allowAboveRoot stk rest
    else normSegs allowAboveRoot (seg :: stack) rest

/-- Join segments with the '/' separator. -/
def joinSegs : List String → String
  | [] => ""
  | [s] => s
  | s :: t :: rest => s ++ "/" ++ joinSegs (t :: rest)

/-- Whether a string starts with the '/' character. -/
def startsWithSlash (s : String) : Bool :=
  s.data.head? = some '/'

/-- Whether a string ends with the '/' character. -/
def endsWithSlash (s : String) : Bool :=
  s.data.getLast? = some '/'

/-- Node's `path.posix.normalize`: collapse repeated slashes, resolve "."
and "..", keep a leading '/' for absolute inputs and a trailing '/' when the
input had one, and produce "." (or "/" for absolute inputs) when nothing
remains. -/
def jsPosixNormalize (p : String) : String :=
  let isAbs := startsWithSlash p
  let trail := endsWithSlash p
  let core := joinSegs (normSegs (!isAbs) [] (segsOf p))
  if core = "" then
    (if isAbs then "/" else if trail then "./" else ".")
  else
    (if isAbs then "/" ++ core else core) ++ (if trail then "/" else "")

/-- Node's `path.posix.join` for two arguments: concatenate the non-empty
arguments with '/' and normalize, with "." for an empty join. -/
def jsPosixJoin (a b : String) : String :=
  let joined := if a = "" then b else if b = "" then a else a ++ "/" ++ b
  if joined = "" then "." else jsPosixNormalize joined

/-- The object key computed by the `exists` and `delete` operations:
`path.posix.join(targetDir || '', filename)`. -/
def opKey (filename : String) (targetDir : JsVal) : String :=
  jsPosixJoin (jsOr targetDir "") filename

/-- Node's `path.basename`: the final segment of the path, ignoring
trailing slashes. -/
def jsBasename (p : String) : String :=
  let noTrail := (p.data.reverse.dropWhile (fun c => c = '/')).reverse
  if noTrail = [] then (if p.data.any (fun c => c = '/') then "/" else "")
  else String.mk ((noTrail.reverse.takeWhile (fun c => c ≠ '/')).reverse)

/-- Object contents as a byte list. -/
abbrev Bytes := List Nat

/-- The JS error shape the adapters inspect: AWS-SDK handlers test
`err.name`, MinIO handlers test `err.code`. -/
structure StoreErr where
  name : String
  code : String
  message : String
  deriving Repr, DecidableEq

/-- A request issued to the object store. -/
inductive StoreReq where
  | put (bucket key : String) (body : Bytes) (meta : List (String × String))
  | head (bucket key : String)
  | get (bucket key : String)
  | del (bucket key : String)
  deriving Repr, DecidableEq

/-- The visible state of the object store: keys with their contents. -/
abbrev Store := List (String × Bytes)

/-- The not-found signal of the store, as surfaced by the client SDKs. -/
def notFoundErr : StoreErr :=
  { name := "NotFound", code := "NotFound", message := "Not Found" }

/-- Honest object-store semantics for the transport capability (spec
sections 1 and 6): put overwrites the key, head/get fail with the not-found
signal on an absent key, and delete always completes, removing the key if
present (S3 DeleteObject succeeds also for keys that never existed). -/
def s3Send (req : StoreReq) (s : Store) : Except StoreErr Unit × Store :=
  match req with
  | .put _ k body _ => (.ok (), (k, body) :: s.filter (fun kv => kv.1 ≠ k))
  | .head _ k =>
      ((match s.lookup k with
        | some _ => .ok ()
        | none => .error notFoundErr), s)
  | .get _ k =>
      ((match s.lookup k with
        | some _ => .ok ()
        | none => .error notFoundErr), s)
  | .del _ k => (.ok (), s.filter (fun kv => kv.1 ≠ k))

/-- The `exists` operation of the AWS-SDK variants (`index.js` lines
128-141, `part_000` lines 63-76): probe the joined key with HeadObject,
return true on success, false when the error name is "NotFound", and
re-throw any other error.  The second component lists the requests issued. -/
def existsAws (bucket filename : String) (targetDir : JsVal)
    (probe : String → Except StoreErr Unit) :
    Except StoreErr Bool × List StoreReq :=
  let filePath := opKey filename targetDir
  match probe filePath with
  | .ok _ => (.ok true, [.head bucket filePath])
  | .error e =>
      if e.name = "NotFound" then (.ok false, [.head bucket filePath])
      else (.error e, [.head bucket filePath])

/-- The `exists` operation of the MinIO variant (`part_001` lines 178-205):
a falsy filename returns false without any store request; otherwise probe
the joined key with statObject, return true on success, false when the error
code is "NotFound" or "NoSuchKey", and re-throw any other error. -/
def existsMinio (bucket : String) (filename targetDir : JsVal)
    (probe : String → Except StoreErr Unit) :
    Except StoreErr Bool × List StoreReq :=
  if !(truthy filename) then (.ok false, [])
  else
    let filePath := jsPosixJoin (jsOr targetDir "") (jsShow filename)
    match probe filePath with
    | .ok _ => (.ok true, [.head bucket filePath])
    | .error e =>
        if e.code = "NotFound" || e.code = "NoSuchKey" then
          (.ok false, [.head bucket filePath])
        else (.error e, [.head bucket filePath])

/-- The `delete` operation of the main variant (`index.js` lines 143-151):
send DeleteObject for the joined key and return true; any transport error
propagates.  The store state is threaded through the transport. -/
def deleteAws (bucket filename : String) (targetDir : JsVal) (s : Store)
    (send : StoreReq → Store → Except StoreErr Unit × Store) :
    (Except StoreErr Bool × List StoreReq) × Store :=
  let filePath := opKey filename targetDir
  let req := StoreReq.del bucket filePath
  match send req s with
  | (.ok _, s2) => ((.ok true, [req]), s2)
  | (.error e, s2) => ((.error e, [req]), s2)

/-- The error thrown by the MinIO `delete` on a falsy filename
(`part_001` line 215). -/
def deleteGuardErr : StoreErr :=
  { name := "Error", code := "",
    message := "Cannot delete file: filename is undefined" }

/-- The `delete` operation of the MinIO variant (`part_001` lines 207-230):
a falsy filename throws before any store request; otherwise removeObject the
joined key and return true, re-throwing transport errors. -/
def deleteMinio (bucket : String) (filename targetDir : JsVal) (s : Store)
    (send : StoreReq → Store → Except StoreErr Unit × Store) :
    (Except StoreErr Bool × List StoreReq) × Store :=
  if !(truthy filename) then ((.error deleteGuardErr, []), s)
  else
    let filePath := jsPosixJoin (jsOr targetDir "") (jsShow filename)
    let req := StoreReq.del bucket filePath
    match send req s with
    | (.ok _, s2) => ((.ok true, [req]), s2)
    | (.error e, s2) => ((.error e, [req]), s2)

/-- The host-supplied file descriptor of an upload. -/
structure ImageFile where
  name : String
  path : String
  type : String
  deriving Repr, DecidableEq

/-- The `save` operation of the AWS-SDK variants (`index.js` lines 112-126,
`part_000` lines 47-61): the key is
`this.getTargetDir(targetDir) + '/' + this.getUniqueFileName(image, targetDir)`
with both helpers supplied by ghost-storage-base (passed here as `gtd` and
`uniq`); read the staged file, send one PutObject with the declared content
type and public-read ACL, and return `publicUrl + '/' + key`; a failed local
read issues no request, and any error propagates without producing a URL. -/
def saveAws (bucket publicUrl : String)
    (gtd : JsVal → String) (uniq : ImageFile → JsVal → String)
    (image : ImageFile) (targetDir : JsVal)
    (readF : String → Except StoreErr Bytes)
    (send : StoreReq → Except StoreErr Unit) :
    Except StoreErr String × List StoreReq :=
  let filePath := gtd targetDir ++ "/" ++ uniq image targetDir
  match readF image.path with
  | .error e => (.error e, [])
  | .ok content =>
      let req := StoreReq.put bucket filePath content
        [("ContentType", image.type), ("ACL", "public-read")]
      match send req with
      | .ok _ => (.ok (publicUrl ++ "/" ++ filePath), [req])
      | .error e => (.error e, [req])

/-- The `save` operation of the MinIO variant (`part_001` lines 95-176):
the directory is `targetDir || this.getTargetDir(this.storagePath)`, the key
is that directory joined by '/' with `path.basename` of the host's unique
file name; one putObject carries the content type and a 7-day cache-control
header; the returned URL is `publicUrl + '/' + key`, and every failure
propagates without producing a URL. -/
def saveMinio (bucket publicUrl storagePath : String)
    (gtd : String → String) (uniq : ImageFile → String → String)
    (file : ImageFile) (targetDir : JsVal)
    (readF : String → Except StoreErr Bytes)
    (send : StoreReq → Except StoreErr Unit) :
    Except StoreErr String × List StoreReq :=
  let dir := if truthy targetDir then jsShow targetDir else gtd storagePath
  let filePath := dir ++ "/" ++ jsBasename (uniq file dir)
  match readF file.path with
  | .error e => (.error e, [])
  | .ok content =>
      let req := StoreReq.put bucket filePath content
        [("Content-Type", file.type), ("Cache-Control", "max-age=604800")]
      match send req with
      | .ok _ => (.ok (publicUrl ++ "/" ++ filePath), [req])
      | .error e => (.error e, [req])

/-- The `read` operation of the AWS-SDK variants (`index.js` lines 157-165):
one GetObject for exactly `options.path`, returning the body stream the
store provides and propagating every error. -/
def readAws (bucket optionsPath : String)
    (getBody : String → Except StoreErr Bytes) :
    Except StoreErr Bytes × List StoreReq :=
  let req := StoreReq.get bucket optionsPath
  match getBody optionsPath with
  | .ok body => (.ok body, [req])
  | .error e => (.error e, [req])

/-- The options record passed to `read`. -/
structure ReadOptions where
  path : JsVal
  deriving Repr, DecidableEq

/-- The error thrown by the MinIO `read` on missing options or a falsy path
(`part_001` line 243). -/
def readGuardErr : StoreErr :=
  { name := "Error", code := "",
    message := "Cannot read file: options.path is undefined" }

/-- The `read` operation of the MinIO variant (`part_001` lines 236-256):
missing options or a falsy path throws before any request; otherwise one
getObject for exactly `options.path`, returning the stream and propagating
every error. -/
def readMinio (bucket : String) (options : Option ReadOptions)
    (getBody : String → Except StoreErr Bytes) :
    Except StoreErr Bytes × List StoreReq :=
  match options with
  | none => (.error readGuardErr, [])
  | some o =>
      if !(truthy o.path) then (.error readGuardErr, [])
      else
        let req := StoreReq.get bucket (jsShow o.path)
        match getBody (jsShow o.path) with
        | .ok body => (.ok body, [req])
        | .error e => (.error e, [req])

/-- C9: in the MinIO-client variant, for every targetDir, calling exists
with an absent, null, or empty filename returns false without issuing any
request to the object store, even though no not-found signal was received
from the store. -/
theorem minio_exists_falsy_filename_no_request
    (bucket : String) (filename targetDir : JsVal)
    (probe : String → Except StoreErr Unit)
    (hfn : truthy filename = false) :
    existsMinio bucket filename targetDir probe = (.ok false, []) := by
  unfold existsMinio
  simp [hfn]

/-- Witness for C9 at filename `undefined` and targetDir "2024/05". -/
theorem minio_exists_falsy_filename_no_request_witness :
    existsMinio "bkt" none (some "2024/05") (fun _ => .ok ()) = (.ok false, []) :=
  minio_exists_falsy_filename_no_request "bkt" none (some "2024/05")
    (fun _ => .ok ()) rfl

/-- C10: in the MinIO-client variant, for every targetDir, calling delete
with an absent, null, or empty filename throws an error before any store
request is issued, so the store state is unchanged. -/
theorem minio_delete_falsy_filename_throws_untouched
    (bucket : String) (filename targetDir : JsVal) (s : Store)
    (send : StoreReq → Store → Except StoreErr Unit × Store)
    (hfn : truthy filename = false) :
    deleteMinio bucket filename targetDir s send
      = ((.error deleteGuardErr, []), s) := by
  unfold deleteMinio
  simp [hfn]

/-- Witness for C10 at filename `undefined` over a one-object store. -/
theorem minio_delete_falsy_filename_throws_untouched_witness :
    deleteMinio "bkt" none (some "2024/05") [("2024/05/x.png", [1, 2])] s3Send
      = ((.error deleteGuardErr, []), [("2024/05/x.png", [1, 2])]) :=
  minio_delete_falsy_filename_throws_untouched "bkt" none (some "2024/05")
    [("2024/05/x.png", [1, 2])] s3Send rfl

/-- C6: the main-variant delete returns true whenever the underlying delete
request completes, including when the object never existed in the store
state, so two deletes of the same key in a row both return true; a transport
failure propagates instead of returning. -/
theorem delete_idempotent_returns_true
    (bucket filename : String) (targetDir : JsVal) (s : Store)
    (send : StoreReq → Store → Except StoreErr Unit × Store) :
    ((deleteAws bucket filename targetDir s s3Send).1.1 = .ok true) ∧
    ((deleteAws bucket filename targetDir
        (deleteAws bucket filename targetDir s s3Send).2 s3Send).1.1
      = .ok true) ∧
    (∀ s2, send (StoreReq.del bucket (opKey filename targetDir)) s = (.ok (), s2) →
       deleteAws bucket filename targetDir s send = ((.ok true, [StoreReq.del bucket (opKey filename targetDir)]), s2)) ∧
    (∀ e s2, send (StoreReq.del bucket (opKey filename targetDir)) s = (.error e, s2) →
       (deleteAws bucket filename targetDir s send).1.1 = .error e) := by
  refine ⟨?_, ?_, ?_, ?_⟩
  · simp [deleteAws, s3Send]
  · simp [deleteAws, s3Send]
  · intro s2 h
    simp [deleteAws, h]
  · intro e s2 h
    simp [deleteAws, h]

/-- Witness for C6: deleting a key that never existed from the empty store
returns true. -/
theorem delete_idempotent_returns_true_witness :
    deleteAws "bkt" "already-gone.png" none [] s3Send
      = ((.ok true, [StoreReq.del "bkt" "already-gone.png"]), []) :=
  (delete_idempotent_returns_true "bkt" "already-gone.png" none [] s3Send).2.2.1
    [] rfl

/-- C8: read issues exactly one get request whose object key is the
caller-supplied path unchanged, with no join, defaulting, or normalization,
and returns the byte stream the store provides for that key; in the MinIO
variant this holds for every truthy path. -/
theorem read_uses_exact_path
    (bucket optionsPath : String) (o : ReadOptions)
    (getBody : String → Except StoreErr Bytes)
    (hp : truthy o.path = true) :
    ((readAws bucket optionsPath getBody).2 = [StoreReq.get bucket optionsPath]) ∧
    (∀ body, getBody optionsPath = .ok body →
       (readAws bucket optionsPath getBody).1 = .ok body) ∧
    (∀ e, getBody optionsPath = .error e →
       (readAws bucket optionsPath getBody).1 = .error e) ∧
    ((readMinio bucket (some o) getBody).2 = [StoreReq.get bucket (jsShow o.path)]) ∧
    (∀ body, getBody (jsShow o.path) = .ok body →
       (readMinio bucket (some o) getBody).1 = .ok body) ∧
    (∀ e, getBody (jsShow o.path) = .error e →
       (readMinio bucket (some o) getBody).1 = .error e) := by
  refine ⟨?_, ?_, ?_, ?_, ?_, ?_⟩
  · unfold readAws
    cases h : getBody optionsPath <;> simp [h]
  · intro body h
    simp [readAws, h]
  · intro e h
    simp [readAws, h]
  · unfold readMinio
    cases h : getBody (jsShow o.path) <;> simp [hp, h]
  · intro body h
    simp [readMinio, hp, h]
  · intro e h
    simp [readMinio, hp, h]

/-- Witness for C8 at the concrete path "2024/05/x.png". -/
theorem read_uses_exact_path_witness :
    (readMinio "bkt" (some { path := some "2024/05/x.png" })
       (fun _ => .ok [9, 8, 7])).1 = .ok [9, 8, 7] :=
  (read_uses_exact_path "bkt" "2024/05/x.png" { path := some "2024/05/x.png" }
     (fun _ => .ok [9, 8, 7]) (by decide)).2.2.2.2.1 [9, 8, 7] rfl

/-- C1: whenever `exists` actually probes the store (for the MinIO variant
this means the filename is truthy, see the guard covered separately), the
result is false exactly when the probe fails with the store's not-found
signal (`err.name === 'NotFound'` for the AWS-SDK variant,
`err.code === 'NotFound' || err.code === 'NoSuchKey'` for the MinIO
variant); a successful probe yields true, and every other probe failure is
re-thrown to the caller rather than mapped to false. -/
theorem exists_maps_only_notfound_to_false
    (bucket filename : String) (targetDir : JsVal) (fnv : JsVal)
    (probe : String → Except StoreErr Unit)
    (hfn : truthy fnv = true) :
    ((existsAws bucket filename targetDir probe).1 = .ok false ↔
       ∃ e, probe (opKey filename targetDir) = .error e ∧ e.name = "NotFound") ∧
    (probe (opKey filename targetDir) = .ok () →
       (existsAws bucket filename targetDir probe).1 = .ok true) ∧
    (∀ e, probe (opKey filename targetDir) = .error e → e.name ≠ "NotFound" →
       (existsAws bucket filename targetDir probe).1 = .error e) ∧
    ((existsMinio bucket fnv targetDir probe).1 = .ok false ↔
       ∃ e, probe (opKey (jsShow fnv) targetDir) = .error e ∧
         (e.code = "NotFound" ∨ e.code = "NoSuchKey")) ∧
    (probe (opKey (jsShow fnv) targetDir) = .ok () →
       (existsMinio bucket fnv targetDir probe).1 = .ok true) ∧
    (∀ e, probe (opKey (jsShow fnv) targetDir) = .error e →
       e.code ≠ "NotFound" → e.code ≠ "NoSuchKey" →
       (existsMinio bucket fnv targetDir probe).1 = .error e) := by
  refine ⟨?_, ?_, ?_, ?_, ?_, ?_⟩
  · unfold existsAws
    cases h : probe (opKey filename targetDir) with
    | ok u => simp [h]
    | error e =>
        by_cases hn : e.name = "NotFound" <;> simp [h, hn]
  · intro h
    simp [existsAws, opKey] at h ⊢
    simp [h]
  · intro e h hn
    simp [existsAws, opKey] at h ⊢
    simp [h, hn]
  · unfold existsMinio
    cases h : probe (opKey (jsShow fnv) targetDir) with
    | ok u => simp [hfn, opKey] at h ⊢; simp [h]
    | error e =>
        by_cases hn : e.code = "NotFound" <;>
          by_cases hk : e.code = "NoSuchKey" <;>
            (simp [hfn, opKey] at h ⊢; simp [h, hn, hk])
  · intro h
    simp [existsMinio, hfn, opKey] at h ⊢
    simp [h]
  · intro e h hn hk
    simp [existsMinio, hfn, opKey] at h ⊢
    simp [h, hn, hk]

/-- Witness for C1: a probe failing with the not-found signal makes exists
return false. -/
theorem exists_maps_only_notfound_to_false_witness :
    (existsAws "bkt" "missing.png" (some "2024/05")
        (fun _ => .error { name := "NotFound", code := "NotFound", message := "" })).1
      = .ok false :=
  (exists_maps_only_notfound_to_false "bkt" "missing.png" (some "2024/05")
      (some "missing.png")
      (fun _ => .error { name := "NotFound", code := "NotFound", message := "" })
      (by decide)).1.mpr
    ⟨{ name := "NotFound", code := "NotFound", message := "" }, rfl, rfl⟩

/-- Counterexample to C2: in the `part_000` variant a configuration with no
explicit endpoint but a public URL set resolves the endpoint to the AWS
regional default, not to `scheme://host[:port]` of the public URL, so the
claimed priority order does not hold for that variant. -/
theorem endpoint_priority_counterexample :
    legacyConstruct
        { s3Bucket := some "b", s3Region := some "eu-west-1",
          s3PublicUrl := some "http://localhost:9000/bucket",
          s3AccessKey := some "k", s3SecretKey := some "s3cr3t",
          s3Endpoint := none }
      = .ok { bucket := some "b", region := some "eu-west-1",
              publicUrl := some "http://localhost:9000/bucket",
              accessKeyId := some "k", secretAccessKey := some "s3cr3t",
              endpoint := "https://s3.eu-west-1.amazonaws.com",
              forcePathStyle := true } ∧
    ("https://s3.eu-west-1.amazonaws.com" : String) ≠ "http://localhost:9000" := by
  constructor
  · rfl
  · decide

/-- C2 amended: the main variant resolves the endpoint in the claimed strict
priority order (explicit endpoint verbatim, else `protocol//host` of the
parsed public URL with the path discarded, else the canonical AWS regional
endpoint, and with none of endpoint, public URL and region present
construction fails); the `part_000` variant skips the public-URL step: its
endpoint is the explicit one if truthy and the AWS regional default
otherwise, independent of the public URL. -/
theorem endpoint_priority_amended
    (env : Env) (parseUrl : String → Option JsUrl) (url : JsUrl) :
    (truthy env.s3Endpoint = true →
       resolveEndpoint env parseUrl = .ok (jsShow env.s3Endpoint)) ∧
    (truthy env.s3Endpoint = false → truthy env.s3PublicUrl = true →
       parseUrl (jsShow env.s3PublicUrl) = some url →
       resolveEndpoint env parseUrl = .ok (url.protocol ++ "//" ++ url.host)) ∧
    (truthy env.s3Endpoint = false → truthy env.s3PublicUrl = true →
       parseUrl (jsShow env.s3PublicUrl) = none →
       resolveEndpoint env parseUrl
         = .error (.invalidPublicUrl (jsShow env.s3PublicUrl))) ∧
    (truthy env.s3Endpoint = false → truthy env.s3PublicUrl = false →
       resolveEndpoint env parseUrl
         = .ok ("https://s3." ++ jsShow env.s3Region ++ ".amazonaws.com")) ∧
    (truthy env.s3Endpoint = false → truthy env.s3PublicUrl = false →
       truthy env.s3Region = false →
       (construct env parseUrl).isOk = false) ∧
    (truthy env.s3Endpoint = true →
       legacyEndpoint env = jsShow env.s3Endpoint) ∧
    (truthy env.s3Endpoint = false →
       legacyEndpoint env
         = "https://s3." ++ jsShow env.s3Region ++ ".amazonaws.com") ∧
    (∀ pu, legacyEndpoint { env with s3PublicUrl := pu } = legacyEndpoint env) := by
  refine ⟨?_, ?_, ?_, ?_, ?_, ?_, ?_, ?_⟩
  · intro hE
    simp [resolveEndpoint, hE]
  · intro hE hP hu
    simp [resolveEndpoint, hE, hP, hu]
  · intro hE hP hu
    simp [resolveEndpoint, hE, hP, hu]
  · intro hE hP
    simp [resolveEndpoint, hE, hP]
  · intro hE hP hR
    have hres : resolveEndpoint env parseUrl
        = .ok ("https://s3." ++ jsShow env.s3Region ++ ".amazonaws.com") := by
      simp [resolveEndpoint, hE, hP]
    simp [construct, hres, hR, Except.isOk, Except.toBool]
  · intro hE
    simp [legacyEndpoint, hE]
  · intro hE
    simp [legacyEndpoint, hE]
  · intro pu
    simp [legacyEndpoint]

/-- Witness for C2 (amended): with only the public URL set, the main
variant derives the endpoint from its scheme and host, discarding the
path. -/
theorem endpoint_priority_amended_witness :
    resolveEndpoint
        { s3Bucket := some "b", s3Region := none,
          s3PublicUrl := some "http://localhost:9000/bucket",
          s3AccessKey := some "k", s3SecretKey := some "s3cr3t",
          s3Endpoint := none }
        (fun _ => some { protocol := "http:", hostname := "localhost",
                         port := "9000", pathname := "/bucket" })
      = .ok "http://localhost:9000" := by
  have h := (endpoint_priority_amended
      { s3Bucket := some "b", s3Region := none,
        s3PublicUrl := some "http://localhost:9000/bucket",
        s3AccessKey := some "k", s3SecretKey := some "s3cr3t",
        s3Endpoint := none }
      (fun _ => some { protocol := "http:", hostname := "localhost",
                       port := "9000", pathname := "/bucket" })
      { protocol := "http:", hostname := "localhost",
        port := "9000", pathname := "/bucket" }).2.1
    (by decide) (by decide) rfl
  rw [h]
  rfl

/-- Counterexample to C4: in the main variant a configuration in which only
the region is absent (bucket, public URL, both credentials and even an
explicit endpoint are all truthy) fails construction, because the main
variant applies no region default before its validation. -/
theorem region_default_counterexample :
    (construct
        { s3Bucket := some "b", s3Region := none,
          s3PublicUrl := some "http://localhost:9000/bucket",
          s3AccessKey := some "k", s3SecretKey := some "s3cr3t",
          s3Endpoint := some "http://localhost:9000" }
        (fun _ => none)).isOk = false ∧
    truthy (some "b") = true ∧
    truthy (some "http://localhost:9000/bucket") = true ∧
    truthy (some "k") = true ∧
    truthy (some "s3cr3t") = true ∧
    truthy (some "http://localhost:9000") = true ∧
    truthy (none : JsVal) = false := by
  refine ⟨rfl, by decide, by decide, by decide, by decide, by decide, rfl⟩

/-- C4 amended: only the MinIO variant defaults an absent region to
us-east-1 before validation, so there a missing region alone never fails
construction; in both AWS-SDK variants the region is required, and a missing
region always fails construction. -/
theorem region_default_amended
    (env : Env) (parseUrl : String → Option JsUrl) (url : JsUrl)
    (hr : truthy env.s3Region = false) :
    (minioRegion env = "us-east-1") ∧
    (truthy env.s3Bucket = true → truthy env.s3AccessKey = true →
     truthy env.s3SecretKey = true → truthy env.s3PublicUrl = true →
     truthy env.s3Endpoint = true →
     parseUrl (jsShow env.s3Endpoint) = some url →
     (minioConstruct env parseUrl).isOk = true) ∧
    ((construct env parseUrl).isOk = false) ∧
    ((legacyConstruct env).isOk = false) := by
  refine ⟨?_, ?_, ?_, ?_⟩
  · simp [minioRegion, jsOr, hr]
  · intro hb ha hs hp he hu
    have hparse : minioParseEndpoint env parseUrl
        = .ok (url.hostname,
               (if url.port ≠ "" then jsParseInt url.port
                else if url.protocol = "https:" then 443 else 80),
               url.protocol = "https:") := by
      simp [minioParseEndpoint, he, hu]
    simp [minioConstruct, hparse, hb, ha, hs, hp, he, Except.isOk, Except.toBool]
  · unfold construct
    cases hres : resolveEndpoint env parseUrl with
    | error e => rfl
    | ok ep => simp [hr, Except.isOk, Except.toBool]
  · simp [legacyConstruct, hr, Except.isOk, Except.toBool]

/-- Witness for C4 (amended): the MinIO variant constructs successfully
with the region unset and every other input present. -/
theorem region_default_amended_witness :
    (minioConstruct
        { s3Bucket := some "b", s3Region := none,
          s3PublicUrl := some "http://localhost:9000/bucket",
          s3AccessKey := some "k", s3SecretKey := some "s3cr3t",
          s3Endpoint := some "http://localhost:9000" }
        (fun _ => some { protocol := "http:", hostname := "localhost",
                         port := "9000", pathname := "" })).isOk = true :=
  (region_default_amended
      { s3Bucket := some "b", s3Region := none,
        s3PublicUrl := some "http://localhost:9000/bucket",
        s3AccessKey := some "k", s3SecretKey := some "s3cr3t",
        s3Endpoint := some "http://localhost:9000" }
      (fun _ => some { protocol := "http:", hostname := "localhost",
                       port := "9000", pathname := "" })
      { protocol := "http:", hostname := "localhost",
        port := "9000", pathname := "" }
      rfl).2.1 (by decide) (by decide) (by decide) (by decide) (by decide) rfl

/-- Counterexample to C5: with every input absent the main variant's
aggregated error does carry one line per variable, but its `S3_ENDPOINT`
line shows the resolved endpoint value and its provenance, not a SET/MISSING
status, so the error does not name the status of every required field. -/
theorem missing_field_status_counterexample :
    construct
        { s3Bucket := none, s3Region := none, s3PublicUrl := none,
          s3AccessKey := none, s3SecretKey := none, s3Endpoint := none }
        (fun _ => none)
      = .error (.missingConfig
          [("S3_BUCKET", "MISSING"),
           ("S3_REGION", "MISSING"),
           ("S3_ENDPOINT",
            "https://s3.undefined.amazonaws.com (auto-derived from S3_PUBLIC_URL)"),
           ("S3_PUBLIC_URL", "MISSING"),
           ("S3_ACCESS_KEY", "MISSING"),
           ("S3_SECRET_KEY", "MISSING")]) ∧
    (∀ p ∈ [("S3_BUCKET", "MISSING"),
            ("S3_REGION", "MISSING"),
            ("S3_ENDPOINT",
             "https://s3.undefined.amazonaws.com (auto-derived from S3_PUBLIC_URL)"),
            ("S3_PUBLIC_URL", "MISSING"),
            ("S3_ACCESS_KEY", "MISSING"),
            ("S3_SECRET_KEY", "MISSING")],
       p.1 = ("S3_ENDPOINT" : String) → p.2 ≠ "SET" ∧ p.2 ≠ "MISSING") := by
  constructor
  · rfl
  · decide

/-- C5 amended: construction failure produces a single aggregated error
whose report names the SET/MISSING status of bucket, region, public URL,
access key and secret key in the main variant (its endpoint line shows the
resolved endpoint value instead of a status), and of bucket, endpoint,
public URL, access key and secret key in the MinIO variant (its region line
shows the defaulted region value instead of a status); the report depends on
the secret key only through its truthiness, so the secret value is never
echoed; absent fields are reported MISSING. -/
theorem missing_field_status_amended
    (env : Env) (parseUrl : String → Option JsUrl) (ep : String) (v w : JsVal) :
    (resolveEndpoint env parseUrl = .ok ep →
     (truthy env.s3Bucket && truthy env.s3Region && truthy env.s3PublicUrl
        && truthy env.s3AccessKey && truthy env.s3SecretKey) = false →
     construct env parseUrl = .error (.missingConfig (mainConfigReport env ep))) ∧
    (("S3_BUCKET", statusOf env.s3Bucket) ∈ mainConfigReport env ep ∧
     ("S3_REGION", statusOf env.s3Region) ∈ mainConfigReport env ep ∧
     ("S3_PUBLIC_URL", statusOf env.s3PublicUrl) ∈ mainConfigReport env ep ∧
     ("S3_ACCESS_KEY", statusOf env.s3AccessKey) ∈ mainConfigReport env ep ∧
     ("S3_SECRET_KEY", statusOf env.s3SecretKey) ∈ mainConfigReport env ep) ∧
    (truthy v = false → statusOf v = "MISSING") ∧
    (truthy v = true → statusOf v = "SET") ∧
    (truthy v = truthy w →
     mainConfigReport { env with s3SecretKey := v } ep
       = mainConfigReport { env with s3SecretKey := w } ep ∧
     minioConfigReport { env with s3SecretKey := v }
       = minioConfigReport { env with s3SecretKey := w }) ∧
    (∀ parsed, minioParseEndpoint env parseUrl = .ok parsed →
     (truthy env.s3Bucket && truthy env.s3AccessKey && truthy env.s3SecretKey
        && truthy env.s3PublicUrl && truthy env.s3Endpoint) = false →
     minioConstruct env parseUrl
       = .error (.missingConfig (minioConfigReport env))) ∧
    (("S3_BUCKET", statusOf env.s3Bucket) ∈ minioConfigReport env ∧
     ("S3_ENDPOINT", statusOf env.s3Endpoint) ∈ minioConfigReport env ∧
     ("S3_PUBLIC_URL", statusOf env.s3PublicUrl) ∈ minioConfigReport env ∧
     ("S3_ACCESS_KEY", statusOf env.s3AccessKey) ∈ minioConfigReport env ∧
     ("S3_SECRET_KEY", statusOf env.s3SecretKey) ∈ minioConfigReport env ∧
     ("S3_REGION", minioRegion env) ∈ minioConfigReport env) := by
  refine ⟨?_, ?_, ?_, ?_, ?_, ?_, ?_⟩
  · intro hres hval
    unfold construct
    rw [hres]
    simp [hval]
  · refine ⟨?_, ?_, ?_, ?_, ?_⟩ <;> simp [mainConfigReport]
  · intro h
    simp [statusOf, h]
  · intro h
    simp [statusOf, h]
  · intro h
    constructor
    · simp [mainConfigReport, statusOf, h]
    · simp [minioConfigReport, minioRegion, jsOr, statusOf, h]
  · intro parsed hres hval
    unfold minioConstruct
    rw [hres]
    simp [hval]
  · refine ⟨?_, ?_, ?_, ?_, ?_, ?_⟩ <;> simp [minioConfigReport]

/-- Witness for C5 (amended): with bucket, public URL and both credentials
absent and the region set, construction fails with the aggregated report in
which each of those four fields is MISSING. -/
theorem missing_field_status_amended_witness :
    construct
        { s3Bucket := none, s3Region := some "us-east-1", s3PublicUrl := none,
          s3AccessKey := none, s3SecretKey := none, s3Endpoint := none }
        (fun _ => none)
      = .error (.missingConfig (mainConfigReport
          { s3Bucket := none, s3Region := some "us-east-1", s3PublicUrl := none,
            s3AccessKey := none, s3SecretKey := none, s3Endpoint := none }
          "https://s3.us-east-1.amazonaws.com")) :=
  (missing_field_status_amended
      { s3Bucket := none, s3Region := some "us-east-1", s3PublicUrl := none,
        s3AccessKey := none, s3SecretKey := none, s3Endpoint := none }
      (fun _ => none) "https://s3.us-east-1.amazonaws.com" none none).1
    rfl rfl

/-- C3: when the host's `getTargetDir` returns the supplied target
directory itself and its unique-name helper yields a bare file name, a
successful save issues exactly one put whose object key is the target
directory joined by '/' with the unique file name and returns
`publicUrl + '/' + key` (in the MinIO variant the name component is
`path.basename` of the helper's result); any failure returns an error and
never a URL, and a failed local read issues no put at all. -/
theorem save_key_and_url
    (bucket publicUrl storagePath td : String) (image : ImageFile)
    (gtdA : JsVal → String) (uniqA : ImageFile → JsVal → String)
    (gtdM : String → String) (uniqM : ImageFile → String → String)
    (readF : String → Except StoreErr Bytes)
    (send : StoreReq → Except StoreErr Unit)
    (hA : gtdA (some td) = td) (hM : td ≠ "") :
    (∀ e, readF image.path = .error e →
       saveAws bucket publicUrl gtdA uniqA image (some td) readF send
         = (.error e, [])) ∧
    (∀ content, readF image.path = .ok content →
       send (StoreReq.put bucket (td ++ "/" ++ uniqA image (some td)) content
         [("ContentType", image.type), ("ACL", "public-read")]) = .ok () →
       saveAws bucket publicUrl gtdA uniqA image (some td) readF send
         = (.ok (publicUrl ++ "/" ++ (td ++ "/" ++ uniqA image (some td))),
            [StoreReq.put bucket (td ++ "/" ++ uniqA image (some td)) content
              [("ContentType", image.type), ("ACL", "public-read")]])) ∧
    (∀ content e, readF image.path = .ok content →
       send (StoreReq.put bucket (td ++ "/" ++ uniqA image (some td)) content
         [("ContentType", image.type), ("ACL", "public-read")]) = .error e →
       (saveAws bucket publicUrl gtdA uniqA image (some td) readF send).1
         = .error e) ∧
    (∀ e, readF image.path = .error e →
       saveMinio bucket publicUrl storagePath gtdM uniqM image (some td) readF send
         = (.error e, [])) ∧
    (∀ content, readF image.path = .ok content →
       send (StoreReq.put bucket (td ++ "/" ++ jsBasename (uniqM image td)) content
         [("Content-Type", image.type), ("Cache-Control", "max-age=604800")]) = .ok () →
       saveMinio bucket publicUrl storagePath gtdM uniqM image (some td) readF send
         = (.ok (publicUrl ++ "/" ++ (td ++ "/" ++ jsBasename (uniqM image td))),
            [StoreReq.put bucket (td ++ "/" ++ jsBasename (uniqM image td)) content
              [("Content-Type", image.type), ("Cache-Control", "max-age=604800")]])) ∧
    (∀ content e, readF image.path = .ok content →
       send (StoreReq.put bucket (td ++ "/" ++ jsBasename (uniqM image td)) content
         [("Content-Type", image.type), ("Cache-Control", "max-age=604800")]) = .error e →
       (saveMinio bucket publicUrl storagePath gtdM uniqM image (some td) readF send).1
         = .error e) := by
  have htd : truthy (some td) = true := by
    simp [truthy, hM]
  refine ⟨?_, ?_, ?_, ?_, ?_, ?_⟩
  · intro e h
    simp [saveAws, hA, h]
  · intro content h hput
    simp [saveAws, hA, h, hput]
  · intro content e h hput
    simp [saveAws, hA, h, hput]
  · intro e h
    simp [saveMinio, htd, jsShow, h]
  · intro content h hput
    simp [saveMinio, htd, jsShow, h] at hput ⊢
    simp [hput]
  · intro content e h hput
    simp [saveMinio, htd, jsShow, h] at hput ⊢
    simp [hput]

/-- Witness for C3: a concrete successful save yields the key
"2024/05/x-1.png" and the URL under the public base. -/
theorem save_key_and_url_witness :
    saveAws "bkt" "https://cdn.example" (fun d => jsOr d "")
        (fun _ _ => "x-1.png")
        { name := "x.png", path := "/tmp/x.png", type := "image/png" }
        (some "2024/05") (fun _ => .ok [137]) (fun _ => .ok ())
      = (.ok "https://cdn.example/2024/05/x-1.png",
         [StoreReq.put "bkt" "2024/05/x-1.png" [137]
           [("ContentType", "image/png"), ("ACL", "public-read")]]) := by
  have h := (save_key_and_url "bkt" "https://cdn.example" "content/images"
      "2024/05" { name := "x.png", path := "/tmp/x.png", type := "image/png" }
      (fun d => jsOr d "") (fun _ _ => "x-1.png")
      (fun s => s) (fun _ _ => "x-1.png")
      (fun _ => .ok [137]) (fun _ => .ok ())
      (by decide) (by decide)).2.1 [137] rfl rfl
  rw [h]
  rfl

theorem splitOnSlash_ne_nil (cs : List Char) : splitOnSlash cs ≠ [] := by
  induction cs with
  | nil => simp [splitOnSlash]
  | cons c rest ih =>
      by_cases hc : c = '/'
      · simp [splitOnSlash, hc]
      · simp only [splitOnSlash, if_neg hc]
        cases h : splitOnSlash rest with
        | nil => exact absurd h ih
        | cons s ss => simp

theorem splitOnSlash_chars {cs : List Char} {seg : List Char}
    (hseg : seg ∈ splitOnSlash cs) : ∀ c ∈ seg, c ∈ cs ∧ c ≠ '/' := by
  induction cs generalizing seg with
  | nil =>
      simp [splitOnSlash] at hseg
      subst hseg
      intro c hc
      simp at hc
  | cons a rest ih =>
      by_cases ha : a = '/'
      · simp only [splitOnSlash, if_pos ha] at hseg
        rcases List.mem_cons.mp hseg with h | h
        · subst h; intro c hc; simp at hc
        · intro c hc
          rcases ih h c hc with ⟨h1, h2⟩
          exact ⟨List.mem_cons_of_mem a h1, h2⟩
      · simp only [splitOnSlash, if_neg ha] at hseg
        cases hsp : splitOnSlash rest with
        | nil => exact absurd hsp (splitOnSlash_ne_nil rest)
        | cons s ss =>
            rw [hsp] at hseg
            rcases List.mem_cons.mp hseg with h | h
            · subst h
              intro c hc
              rcases List.mem_cons.mp hc with h | h
              · subst h
                exact ⟨List.mem_cons_self _ _, ha⟩
              · have hs : s ∈ splitOnSlash rest := by
                  rw [hsp]; exact List.mem_cons_self s ss
                rcases ih hs c h with ⟨h1, h2⟩
                exact ⟨List.mem_cons_of_mem a h1, h2⟩
            · have hs : seg ∈ splitOnSlash rest := by
                rw [hsp]; exact List.mem_cons_of_mem s h
              intro c hc
              rcases ih hs c hc with ⟨h1, h2⟩
              exact ⟨List.mem_cons_of_mem a h1, h2⟩

theorem splitOnSlash_append (xs ys : List Char) :
    splitOnSlash (xs ++ '/' :: ys) = splitOnSlash xs ++ splitOnSlash ys := by
  induction xs with
  | nil => simp [splitOnSlash]
  | cons c xs ih =>
      show splitOnSlash (c :: (xs ++ '/' :: ys))
        = splitOnSlash (c :: xs) ++ splitOnSlash ys
      by_cases hc : c = '/'
      · simp only [splitOnSlash, if_pos hc]
        rw [ih]
        simp
      · simp only [splitOnSlash, if_neg hc]
        rw [ih]
        cases hsx : splitOnSlash xs with
        | nil => exact absurd hsx (splitOnSlash_ne_nil xs)
        | cons t ts => simp

theorem splitOnSlash_of_no_slash {cs : List Char} (h : '/' ∉ cs) :
    splitOnSlash cs = [cs] := by
  induction cs with
  | nil => rfl
  | cons c rest ih =>
      have hc : c ≠ '/' := fun hcc => h (hcc ▸ List.mem_cons_self c rest)
      have hr : '/' ∉ rest := fun hrr => h (List.mem_cons_of_mem c hrr)
      simp only [splitOnSlash, if_neg hc, ih hr]

theorem mem_segsOf {p : String} {s : String} (h : s ∈ segsOf p) :
    s ≠ "" ∧ '/' ∉ s.data ∧ ∀ c ∈ s.data, c ∈ p.data := by
  unfold segsOf at h
  rcases List.mem_map.mp h with ⟨seg, hsegmem, rfl⟩
  rcases List.mem_filter.mp hsegmem with ⟨hseg, hne⟩
  have hne' : seg ≠ [] := by simpa using hne
  refine ⟨?_, ?_, ?_⟩
  · intro hmk
    apply hne'
    have := congrArg String.data hmk
    simpa using this
  · intro hsl
    exact (splitOnSlash_chars hseg '/' hsl).2 rfl
  · intro c hc
    exact (splitOnSlash_chars hseg c hc).1

theorem segsOf_append_slash (a b : String) :
    segsOf (a ++ "/" ++ b) = segsOf a ++ segsOf b := by
  have hd : (a ++ "/" ++ b).data = a.data ++ '/' :: b.data := by
    simp [String.data_append]
  unfold segsOf
  rw [hd, splitOnSlash_append, List.filter_append, List.map_append]

theorem segsOf_slash_prefix (b : String) : segsOf ("/" ++ b) = segsOf b := by
  have hd : ("/" ++ b).data = '/' :: b.data := by
    simp [String.data_append]
  unfold segsOf
  rw [hd]
  simp only [splitOnSlash]
  simp

theorem segsOf_slash_suffix (a : String) : segsOf (a ++ "/") = segsOf a := by
  have hd : (a ++ "/").data = a.data ++ '/' :: [] := by
    simp [String.data_append]
  unfold segsOf
  rw [hd, splitOnSlash_append]
  simp [splitOnSlash]

theorem normSegs_of_no_dotdot {l : List String} (h : (".." : String) ∉ l)
    (allow : Bool) (stack : List String) :
    normSegs allow stack l = stack.reverse ++ l.filter (fun s => s ≠ ".") := by
  induction l generalizing stack with
  | nil => simp [normSegs]
  | cons seg rest ih =>
      have hseg : seg ≠ ".." := fun hs => h (hs ▸ List.mem_cons_self seg rest)
      have hrest : (".." : String) ∉ rest := fun hr => h (List.mem_cons_of_mem seg hr)
      by_cases hdot : seg = "."
      · simp only [normSegs, if_pos hdot, ih hrest]
        simp [List.filter_cons, hdot]
      · simp only [normSegs, if_neg hdot, if_neg hseg, ih hrest]
        simp [List.filter_cons, hdot]

theorem mem_normSegs {l : List String} {allow : Bool} {stack : List String}
    {x : String} (h : x ∈ normSegs allow stack l) :
    x ∈ stack ∨ x ∈ l ∨ x = ".." := by
  induction l generalizing stack with
  | nil =>
      simp only [normSegs, List.mem_reverse] at h
      exact Or.inl h
  | cons seg rest ih =>
      by_cases hdot : seg = "."
      · simp only [normSegs, if_pos hdot] at h
        rcases ih h with h1 | h1 | h1
        · exact Or.inl h1
        · exact Or.inr (Or.inl (List.mem_cons_of_mem seg h1))
        · exact Or.inr (Or.inr h1)
      · by_cases hdd : seg = ".."
        · simp only [normSegs, if_neg hdot, if_pos hdd] at h
          cases stack with
          | nil =>
              rcases ih h with h1 | h1 | h1
              · by_cases hallow : allow
                · rw [if_pos hallow] at h1
                  rcases List.mem_cons.mp h1 with h2 | h2
                  · exact Or.inr (Or.inr h2)
                  · simp at h2
                · rw [if_neg hallow] at h1
                  simp at h1
              · exact Or.inr (Or.inl (List.mem_cons_of_mem seg h1))
              · exact Or.inr (Or.inr h1)
          | cons top stk =>
              replace h : x ∈ (if top = ".." then normSegs allow (seg :: top :: stk) rest
                  else normSegs allow stk rest) := h
              by_cases htop : top = ".."
              · rw [if_pos htop] at h
                rcases ih h with h1 | h1 | h1
                · rcases List.mem_cons.mp h1 with h2 | h2
                  · exact Or.inr (Or.inr (h2.trans hdd))
                  · exact Or.inl h2
                · exact Or.inr (Or.inl (List.mem_cons_of_mem seg h1))
                · exact Or.inr (Or.inr h1)
              · rw [if_neg htop] at h
                rcases ih h with h1 | h1 | h1
                · exact Or.inl (List.mem_cons_of_mem top h1)
                · exact Or.inr (Or.inl (List.mem_cons_of_mem seg h1))
                · exact Or.inr (Or.inr h1)
        · simp only [normSegs, if_neg hdot, if_neg hdd] at h
          rcases ih h with h1 | h1 | h1
          · rcases List.mem_cons.mp h1 with h2 | h2
            · exact Or.inr (Or.inl (h2 ▸ List.mem_cons_self seg rest))
            · exact Or.inl h2
          · exact Or.inr (Or.inl (List.mem_cons_of_mem seg h1))
          · exact Or.inr (Or.inr h1)

theorem data_ne_nil_of_ne_empty {s : String} (h : s ≠ "") : s.data ≠ [] := by
  intro hd
  apply h
  cases s
  simp_all

theorem data_head_append (a b : String) (ha : a ≠ "") :
    (a ++ b).data.head? = a.data.head? := by
  cases hd : a.data with
  | nil => exact absurd hd (data_ne_nil_of_ne_empty ha)
  | cons c cs => simp [String.data_append, hd]

theorem append_ne_empty_left (a b : String) (ha : a ≠ "") : a ++ b ≠ "" := by
  intro h
  apply data_ne_nil_of_ne_empty ha
  have := congrArg String.data h
  simp [String.data_append] at this
  exact this.1

theorem joinSegs_chars {l : List String} {c : Char}
    (h : c ∈ (joinSegs l).data) : (∃ s ∈ l, c ∈ s.data) ∨ c = '/' := by
  induction l with
  | nil => simp [joinSegs] at h
  | cons s rest ih =>
      cases rest with
      | nil =>
          exact Or.inl ⟨s, List.mem_cons_self s [], h⟩
      | cons t ts =>
          have hd : (joinSegs (s :: t :: ts)).data
              = s.data ++ '/' :: (joinSegs (t :: ts)).data := by
            show (s ++ "/" ++ joinSegs (t :: ts)).data = _
            simp [String.data_append]
          rw [hd] at h
          rcases List.mem_append.mp h with h1 | h1
          · exact Or.inl ⟨s, List.mem_cons_self s (t :: ts), h1⟩
          · rcases List.mem_cons.mp h1 with h2 | h2
            · exact Or.inr h2
            · rcases ih h2 with ⟨s2, hs2, hc2⟩ | h3
              · exact Or.inl ⟨s2, List.mem_cons_of_mem s hs2, hc2⟩
              · exact Or.inr h3

theorem joinSegs_head {s : String} (l : List String) (hs : s ≠ "") :
    (joinSegs (s :: l)).data.head? = s.data.head? := by
  cases l with
  | nil => rfl
  | cons t ts =>
      show ((s ++ "/" ++ joinSegs (t :: ts))).data.head? = s.data.head?
      rw [data_head_append _ _ (append_ne_empty_left s "/" hs)]
      exact data_head_append s "/" hs

theorem joinSegs_ne_empty {s : String} (l : List String) (hs : s ≠ "") :
    joinSegs (s :: l) ≠ "" := by
  intro h
  have h1 := joinSegs_head l hs
  rw [h] at h1
  cases hd : s.data with
  | nil => exact data_ne_nil_of_ne_empty hs hd
  | cons c cs => rw [hd] at h1; simp at h1

theorem segsOf_joinSegs {l : List String}
    (h : ∀ s ∈ l, s ≠ "" ∧ '/' ∉ s.data) : segsOf (joinSegs l) = l := by
  induction l with
  | nil => rfl
  | cons s rest ih =>
      have hs := h s (List.mem_cons_self s rest)
      have hsingle : segsOf s = [s] := by
        unfold segsOf
        rw [splitOnSlash_of_no_slash hs.2]
        simp [data_ne_nil_of_ne_empty hs.1]
      cases rest with
      | nil => exact hsingle
      | cons t ts =>
          have hrest : ∀ x ∈ t :: ts, x ≠ "" ∧ '/' ∉ x.data :=
            fun x hx => h x (List.mem_cons_of_mem s hx)
          show segsOf (s ++ "/" ++ joinSegs (t :: ts)) = s :: t :: ts
          rw [segsOf_append_slash, hsingle, ih hrest]
          rfl

theorem str_ext {a b : String} (h : a.data = b.data) : a = b := by
  cases a
  cases b
  exact congrArg String.mk h

theorem append_empty_str (s : String) : s ++ "" = s :=
  str_ext (by simp [String.data_append])

theorem jsPosixNormalize_eq (p : String) :
    jsPosixNormalize p =
      (if joinSegs (normSegs (!startsWithSlash p) [] (segsOf p)) = "" then
        (if startsWithSlash p then "/"
         else if endsWithSlash p then "./" else ".")
      else
        (if startsWithSlash p then
           "/" ++ joinSegs (normSegs (!startsWithSlash p) [] (segsOf p))
         else joinSegs (normSegs (!startsWithSlash p) [] (segsOf p))) ++
        (if endsWithSlash p then "/" else "")) := rfl

theorem jsPosixNormalize_eq_rel {p : String} (h : startsWithSlash p = false) :
    jsPosixNormalize p =
      (if joinSegs (normSegs true [] (segsOf p)) = "" then
        (if endsWithSlash p then "./" else ".")
      else
        joinSegs (normSegs true [] (segsOf p)) ++
        (if endsWithSlash p then "/" else "")) := by
  rw [jsPosixNormalize_eq, h]
  simp

theorem normOut_props {p : String} {allow : Bool} {s : String}
    (hs : s ∈ normSegs allow [] (segsOf p)) : s ≠ "" ∧ '/' ∉ s.data := by
  rcases mem_normSegs hs with h | h | h
  · simp at h
  · exact ⟨(mem_segsOf h).1, (mem_segsOf h).2.1⟩
  · subst h
    refine ⟨by decide, by decide⟩

theorem normalize_no_leading_slash {p : String}
    (h : startsWithSlash p = false) :
    startsWithSlash (jsPosixNormalize p) = false := by
  rw [jsPosixNormalize_eq_rel h]
  by_cases hcore : joinSegs (normSegs true [] (segsOf p)) = ""
  · rw [if_pos hcore]
    by_cases ht : endsWithSlash p = true <;> simp [ht, startsWithSlash]
  · rw [if_neg hcore]
    cases hout : normSegs true [] (segsOf p) with
    | nil => rw [hout] at hcore; exact absurd rfl hcore
    | cons s rest =>
        have hsprops : s ≠ "" ∧ '/' ∉ s.data :=
          normOut_props (by rw [hout]; exact List.mem_cons_self _ _)
        have hne : joinSegs (s :: rest) ≠ "" := joinSegs_ne_empty rest hsprops.1
        have hfull : ((joinSegs (s :: rest))
            ++ (if endsWithSlash p = true then "/" else "")).data.head?
              = s.data.head? := by
          rw [data_head_append _ _ hne]
          exact joinSegs_head rest hsprops.1
        simp only [startsWithSlash, hfull]
        cases hd : s.data with
        | nil => exact absurd hd (data_ne_nil_of_ne_empty hsprops.1)
        | cons c cs =>
            have hc : c ≠ '/' := fun hcc =>
              hsprops.2 (hd ▸ (hcc ▸ List.mem_cons_self c cs))
            simp [hc]

theorem normalize_no_dotdot {p : String} (h : (".." : String) ∉ segsOf p) :
    (".." : String) ∉ segsOf (jsPosixNormalize p) := by
  have hcoreSegs : ∀ allow,
      segsOf (joinSegs (normSegs allow [] (segsOf p)))
        = normSegs allow [] (segsOf p) :=
    fun allow => segsOf_joinSegs (fun s hs => normOut_props hs)
  rw [jsPosixNormalize_eq]
  by_cases hcore : joinSegs (normSegs (!startsWithSlash p) [] (segsOf p)) = ""
  · rw [if_pos hcore]
    by_cases habs : startsWithSlash p = true <;>
      by_cases ht : endsWithSlash p = true <;>
        simp [habs, ht] <;> decide
  · rw [if_neg hcore]
    have hsub : segsOf ((if startsWithSlash p then
          "/" ++ joinSegs (normSegs (!startsWithSlash p) [] (segsOf p))
        else joinSegs (normSegs (!startsWithSlash p) [] (segsOf p))) ++
          (if endsWithSlash p then "/" else ""))
        = normSegs (!startsWithSlash p) [] (segsOf p) := by
      by_cases habs : startsWithSlash p = true <;>
        by_cases ht : endsWithSlash p = true <;>
          simp [habs, ht, append_empty_str, segsOf_slash_suffix,
            segsOf_slash_prefix, hcoreSegs]
    rw [hsub, normSegs_of_no_dotdot h (!startsWithSlash p) []]
    intro hmem
    have h2 : (".." : String) ∈ List.filter (fun s => s ≠ ".") (segsOf p) := by
      simpa using hmem
    exact h (List.mem_of_mem_filter h2)

theorem normalize_chars {p : String} {c : Char}
    (h : c ∈ (jsPosixNormalize p).data) : c ∈ p.data ∨ c = '/' ∨ c = '.' := by
  rw [jsPosixNormalize_eq] at h
  have hmain : ∀ d : Char,
      d ∈ (joinSegs (normSegs (!startsWithSlash p) [] (segsOf p))).data →
      d ∈ p.data ∨ d = '/' ∨ d = '.' := by
    intro d hd
    rcases joinSegs_chars hd with ⟨s, hs, hds⟩ | hd2
    · rcases mem_normSegs hs with h1 | h1 | h1
      · simp at h1
      · exact Or.inl ((mem_segsOf h1).2.2 d hds)
      · subst h1
        have hdd : (".." : String).data = ['.', '.'] := rfl
        rw [hdd] at hds
        rcases List.mem_cons.mp hds with h2 | h2
        · exact Or.inr (Or.inr h2)
        · rcases List.mem_cons.mp h2 with h3 | h3
          · exact Or.inr (Or.inr h3)
          · simp at h3
    · exact Or.inr (Or.inl hd2)
  by_cases hcore : joinSegs (normSegs (!startsWithSlash p) [] (segsOf p)) = ""
  · rw [if_pos hcore] at h
    by_cases habs : startsWithSlash p = true
    · rw [if_pos habs] at h
      have hslash : ("/" : String).data = ['/'] := rfl
      rw [hslash] at h
      rcases List.mem_cons.mp h with h2 | h2
      · exact Or.inr (Or.inl h2)
      · simp at h2
    · rw [if_neg habs] at h
      by_cases ht : endsWithSlash p = true
      · rw [if_pos ht] at h
        have hds : ("./" : String).data = ['.', '/'] := rfl
        rw [hds] at h
        rcases List.mem_cons.mp h with h2 | h2
        · exact Or.inr (Or.inr h2)
        · rcases List.mem_cons.mp h2 with h3 | h3
          · exact Or.inr (Or.inl h3)
          · simp at h3
      · rw [if_neg ht] at h
        have hds : ("." : String).data = ['.'] := rfl
        rw [hds] at h
        rcases List.mem_cons.mp h with h2 | h2
        · exact Or.inr (Or.inr h2)
        · simp at h2
  · rw [if_neg hcore] at h
    rw [String.data_append] at h
    rcases List.mem_append.mp h with h1 | h1
    · by_cases habs : startsWithSlash p = true
      · rw [if_pos habs] at h1
        rw [String.data_append] at h1
        rcases List.mem_append.mp h1 with h2 | h2
        · have hslash : ("/" : String).data = ['/'] := rfl
          rw [hslash] at h2
          rcases List.mem_cons.mp h2 with h3 | h3
          · exact Or.inr (Or.inl h3)
          · simp at h3
        · exact hmain c h2
      · rw [if_neg habs] at h1
        exact hmain c h1
    · by_cases ht : endsWithSlash p = true
      · rw [if_pos ht] at h1
        have hslash : ("/" : String).data = ['/'] := rfl
        rw [hslash] at h1
        rcases List.mem_cons.mp h1 with h3 | h3
        · exact Or.inr (Or.inl h3)
        · simp at h3
      · rw [if_neg ht] at h1
        simp at h1

theorem jsPosixJoin_eq (a b : String) :
    jsPosixJoin a b =
      (if (if a = "" then b else if b = "" then a else a ++ "/" ++ b) = ""
       then "."
       else jsPosixNormalize
         (if a = "" then b else if b = "" then a else a ++ "/" ++ b)) := rfl

theorem startsWithSlash_append_left (a b : String) (ha : a ≠ "") :
    startsWithSlash (a ++ b) = startsWithSlash a := by
  simp only [startsWithSlash, data_head_append a b ha]

theorem jsPosixJoin_chars {a b : String} {c : Char}
    (h : c ∈ (jsPosixJoin a b).data) :
    c ∈ a.data ∨ c ∈ b.data ∨ c = '/' ∨ c = '.' := by
  rw [jsPosixJoin_eq] at h
  by_cases hA : a = ""
  · rw [if_pos hA] at h
    by_cases hB : b = ""
    · rw [if_pos hB] at h
      have : c ∈ ['.'] := h
      rcases List.mem_cons.mp this with h2 | h2
      · exact Or.inr (Or.inr (Or.inr h2))
      · simp at h2
    · rw [if_neg hB] at h
      rcases normalize_chars h with h2 | h2 | h2
      · exact Or.inr (Or.inl h2)
      · exact Or.inr (Or.inr (Or.inl h2))
      · exact Or.inr (Or.inr (Or.inr h2))
  · rw [if_neg hA] at h
    by_cases hB : b = ""
    · rw [if_pos hB, if_neg hA] at h
      rcases normalize_chars h with h2 | h2 | h2
      · exact Or.inl h2
      · exact Or.inr (Or.inr (Or.inl h2))
      · exact Or.inr (Or.inr (Or.inr h2))
    · rw [if_neg hB, if_neg (append_ne_empty_left _ b
        (append_ne_empty_left a "/" hA))] at h
      rcases normalize_chars h with h2 | h2 | h2
      · rw [String.data_append, String.data_append] at h2
        rcases List.mem_append.mp h2 with h3 | h3
        · rcases List.mem_append.mp h3 with h4 | h4
          · exact Or.inl h4
          · have : c ∈ ['/'] := h4
            rcases List.mem_cons.mp this with h5 | h5
            · exact Or.inr (Or.inr (Or.inl h5))
            · simp at h5
        · exact Or.inr (Or.inl h3)
      · exact Or.inr (Or.inr (Or.inl h2))
      · exact Or.inr (Or.inr (Or.inr h2))

theorem jsPosixJoin_no_leading_slash {a b : String}
    (ha : startsWithSlash a = false) (hb : startsWithSlash b = false) :
    startsWithSlash (jsPosixJoin a b) = false := by
  rw [jsPosixJoin_eq]
  by_cases hA : a = ""
  · rw [if_pos hA]
    by_cases hB : b = ""
    · rw [if_pos hB]
      decide
    · rw [if_neg hB]
      exact normalize_no_leading_slash hb
  · rw [if_neg hA]
    by_cases hB : b = ""
    · rw [if_pos hB, if_neg hA]
      exact normalize_no_leading_slash ha
    · rw [if_neg hB, if_neg (append_ne_empty_left _ b
        (append_ne_empty_left a "/" hA))]
      apply normalize_no_leading_slash
      rw [startsWithSlash_append_left _ b (append_ne_empty_left a "/" hA),
        startsWithSlash_append_left a "/" hA]
      exact ha

theorem jsPosixJoin_no_dotdot {a b : String}
    (ha : (".." : String) ∉ segsOf a) (hb : (".." : String) ∉ segsOf b) :
    (".." : String) ∉ segsOf (jsPosixJoin a b) := by
  rw [jsPosixJoin_eq]
  by_cases hA : a = ""
  · rw [if_pos hA]
    by_cases hB : b = ""
    · rw [if_pos hB]
      decide
    · rw [if_neg hB]
      exact normalize_no_dotdot hb
  · rw [if_neg hA]
    by_cases hB : b = ""
    · rw [if_pos hB, if_neg hA]
      exact normalize_no_dotdot ha
    · rw [if_neg hB, if_neg (append_ne_empty_left _ b
        (append_ne_empty_left a "/" hA))]
      apply normalize_no_dotdot
      rw [segsOf_append_slash]
      intro hmem
      rcases List.mem_append.mp hmem with h1 | h1
      · exact ha h1
      · exact hb h1

/-- Counterexample to C7: the object key of exists/delete can start with
'/' (an absolute host-supplied filename passes through the posix join
unchanged when the target directory is falsy) and can retain a '..' segment
(leading '..' segments survive posix normalization). -/
theorem object_key_invariant_counterexample :
    (existsAws "bkt" "/etc/passwd" none (fun _ => .ok ())).2
        = [StoreReq.head "bkt" "/etc/passwd"] ∧
    startsWithSlash "/etc/passwd" = true ∧
    (deleteAws "bkt" "../../x" (some "2024") [] s3Send).1.2
        = [StoreReq.del "bkt" "../x"] ∧
    (".." : String) ∈ segsOf "../x" := by
  refine ⟨rfl, by decide, rfl, by decide⟩

/-- C7 amended: the key computed by exists/delete is built purely from the
input segments joined by '/' (every character of the key comes from the
inputs or is '/' or '.'), and for benign host inputs, neither starting with
'/' nor containing a '..' segment, the key neither starts with '/' nor
contains a '..' segment; the save key is the plain '/'-join of the host
helpers' outputs, so its segments are exactly the segments they contribute
and it starts with '/' only if the directory part does. -/
theorem object_key_invariant_amended (fn : String) (td : JsVal) :
    (∀ c ∈ (opKey fn td).data,
       c ∈ (jsOr td "").data ∨ c ∈ fn.data ∨ c = '/' ∨ c = '.') ∧
    (startsWithSlash (jsOr td "") = false → startsWithSlash fn = false →
       startsWithSlash (opKey fn td) = false) ∧
    ((".." : String) ∉ segsOf (jsOr td "") → (".." : String) ∉ segsOf fn →
       (".." : String) ∉ segsOf (opKey fn td)) ∧
    (∀ d u : String, segsOf (d ++ "/" ++ u) = segsOf d ++ segsOf u) ∧
    (∀ d u : String, d ≠ "" →
       startsWithSlash (d ++ "/" ++ u) = startsWithSlash d) := by
  refine ⟨?_, ?_, ?_, ?_, ?_⟩
  · intro c hc
    exact jsPosixJoin_chars hc
  · intro h1 h2
    exact jsPosixJoin_no_leading_slash h1 h2
  · intro h1 h2
    exact jsPosixJoin_no_dotdot h1 h2
  · intro d u
    exact segsOf_append_slash d u
  · intro d u hd
    rw [startsWithSlash_append_left _ u (append_ne_empty_left d "/" hd),
      startsWithSlash_append_left d "/" hd]

/-- Witness for C7 (amended): a benign filename and target directory yield
a relative, '..'-free key. -/
theorem object_key_invariant_amended_witness :
    startsWithSlash (opKey "x.png" (some "2024/05")) = false :=
  (object_key_invariant_amended "x.png" (some "2024/05")).2.1
    (by decide) (by decide)
